import Mathlib

/-!
Shallow embedding of the diplomacybot repository (Python) for specification
checking.  Pure functions of the source are translated to Lean functions;
the SQLite-backed state is modelled as explicit association-list tables
passed through each operation; clock reads (`datetime.now`) become explicit
parameters; `json.loads` is modelled as an `Option Json` parameter holding
the parse result of the oracle's text.  Every definition mirrors the named
source function in `src/`.
-/

namespace Diplo

/-! ## Character and string helpers (Python `str` semantics, ASCII fragment) -/

/-- The ASCII whitespace class of Python's regex class and of `str.strip`
(space, tab, newline, carriage return, vertical tab, form feed). -/
def isSpaceChar (c : Char) : Bool :=
  c == ' ' || c == '\t' || c == '\n' || c == '\r' || c == '\x0b' || c == '\x0c'

/-- Python `str.strip()` on the character list. -/
def pyStripList (l : List Char) : List Char :=
  ((l.dropWhile isSpaceChar).reverse.dropWhile isSpaceChar).reverse

/-- Python `str.strip()`. -/
def pyStrip (s : String) : String := String.mk (pyStripList s.data)

def isUpperAscii (c : Char) : Bool := decide (65 ≤ c.toNat ∧ c.toNat ≤ 90)

def isLowerAscii (c : Char) : Bool := decide (97 ≤ c.toNat ∧ c.toNat ≤ 122)

/-- Embedding of `[A-Za-z]` of the order grammar. -/
def isAsciiLetter (c : Char) : Bool := isUpperAscii c || isLowerAscii c

/-- ASCII lower-casing, the fragment of Python `str.lower` / SQLite `lower()`
relevant to the seven country names and the `claim` keyword. -/
def asciiLowerChar (c : Char) : Char :=
  if isUpperAscii c then Char.ofNat (c.toNat + 32) else c

/-- SQLite `lower(...)` / Python `str.lower()` (ASCII fragment). -/
def lowerStr (s : String) : String := String.mk (s.data.map asciiLowerChar)

/-- Split a character list at every character satisfying `p`
(every separator splits; empty pieces are produced and filtered by callers,
matching the `if ln.strip()` / `filter` steps of the source). -/
def splitByAux (p : Char → Bool) : List Char → List Char → List (List Char)
  | acc, [] => [acc.reverse]
  | acc, c :: rest =>
      if p c then acc.reverse :: splitByAux p [] rest
      else splitByAux p (c :: acc) rest

/-- Python `str.splitlines()` (newline fragment; `\r` is removed by the
subsequent `strip`). -/
def splitLines (s : String) : List String :=
  (splitByAux (fun c => c == '\n') [] s.data).map String.mk

/-- Whitespace tokenisation: the pieces between `\s+` runs. -/
def tokens (s : String) : List String :=
  ((splitByAux isSpaceChar [] s.data).map String.mk).filter (fun t => t ≠ "")

/-- Byte/code-point lexicographic `<` on strings: SQLite BINARY collation on
UTF-8 text (UTF-8 byte order coincides with code-point order). -/
def strLtB : List Char → List Char → Bool
  | [], [] => false
  | [], _ :: _ => true
  | _ :: _, [] => false
  | a :: as, b :: bs =>
      if a.toNat < b.toNat then true
      else if b.toNat < a.toNat then false
      else strLtB as bs

/-- SQLite TEXT comparison `a < b`. -/
def strLt (a b : String) : Bool := strLtB a.data b.data

/-- Python `l[-n:]` for `n > 0` (whole list when `n ≥ length`). -/
def lastN {α : Type} (l : List α) (n : Nat) : List α := l.drop (l.length - n)

/-- Membership test on a list of strings (Python `in` on a list / set). -/
def memStr (x : String) (l : List String) : Bool := l.any (fun y => y == x)

/-- Python `a.startswith(b)`. -/
def startsWith (b a : String) : Bool := a.data.take b.data.length == b.data

/-! ## Association-list tables (SQLite tables keyed by primary key) -/

/-- Embedding of `SELECT ... WHERE key = k` returning the first (unique) row. -/
def alookup {κ α : Type} [DecidableEq κ] : List (κ × α) → κ → Option α
  | [], _ => none
  | (k', v) :: rest, k => if k' = k then some v else alookup rest k

/-- Embedding of `INSERT ... ON CONFLICT(key) DO UPDATE` upsert. -/
def aset {κ α : Type} [DecidableEq κ] : List (κ × α) → κ → α → List (κ × α)
  | [], k, v => [(k, v)]
  | (k', v') :: rest, k, v =>
      if k' = k then (k, v) :: rest else (k', v') :: aset rest k v

/-! ## JSON values (the result of Python `json.loads`) -/

inductive Json where
  | null : Json
  | bool (b : Bool) : Json
  | num (n : Int) : Json
  | str (s : String) : Json
  | arr (xs : List Json) : Json
  | obj (kvs : List (String × Json)) : Json

/-- Python `dict.get` on an object's key/value list. -/
def getKey : List (String × Json) → String → Option Json
  | [], _ => none
  | (k', v) :: rest, k => if k' = k then some v else getKey rest k

/-- Python set equality `set(a) == set(b)` on key lists. -/
def keySetEq (a b : List String) : Bool :=
  a.all (fun k => memStr k b) && b.all (fun k => memStr k a)

/-! ## Order validator (`src/main.py` `ORDER_PATTERNS` / `extract_valid_orders`)

Each regex alternative is a sequence of whitespace-free atoms joined by
`\s+` and anchored by `^`/`$`, so a stripped line matches iff its
whitespace-token list matches the corresponding atom list:
  hold `^[AF]\s+[A-Za-z]{3}\s+H$`, disband `... D$`, builds `^A ... B$` /
  `^F ... B$` (three tokens); move `... - prov` and retreat `... R prov`
  (four tokens); support-hold (six tokens); support-move and convoy
  (seven tokens). -/

def isUnit (t : String) : Bool := t == "A" || t == "F"

def isProv (t : String) : Bool := t.data.length == 3 && t.data.all isAsciiLetter

/-- Embedding of `ORDER_RE.match` on a stripped line. -/
def matchesOrder (line : String) : Bool :=
  match tokens line with
  | [u, p, x] => isUnit u && isProv p && (x == "H" || x == "D" || x == "B")
  | [u, p, x, q] => isUnit u && isProv p && (x == "-" || x == "R") && isProv q
  | [u, p, x, v, q, h] =>
      isUnit u && isProv p && x == "S" && isUnit v && isProv q && h == "H"
  | [u, p, x, v, q, d, r] =>
      isUnit u && isProv p && (x == "S" || x == "C") && isUnit v && isProv q
        && d == "-" && isProv r
  | _ => false

/-- Embedding of `extract_valid_orders` (`src/main.py:506`): split into lines, strip,
drop empty lines, keep only grammar-matching lines. -/
def extract_valid_orders (text : String) : List String :=
  let lines := ((splitLines text).map pyStrip).filter (fun s => s ≠ "")
  lines.filter matchesOrder

/-- Embedding of `orders` pipeline tail (`src/main.py:606-617`): first completion, then
exactly one retry with the stricter prompt, then fail closed.  The two
oracle outputs are the two `call_openai` results. -/
def generate_orders (raw1 raw2 : String) : Option (List String) :=
  let orders1 := extract_valid_orders raw1
  if orders1 ≠ [] then some orders1
  else
    let orders2 := extract_valid_orders raw2
    if orders2 ≠ [] then some orders2 else none

/-! ## Cooldown limiter (`src/database.py` `check_and_update_cooldown`) -/

/-- Embedding of `check_and_update_cooldown` (`src/database.py:233`): timestamps are the
POSIX-second values, modelled as rationals; `window` is
`USER_COOLDOWN_SECONDS`.  Returns `(allowed, new table)`. -/
def check_and_update_cooldown (cds : List (Nat × Rat)) (uid : Nat)
    (now_ts window : Rat) : Bool × List (Nat × Rat) :=
  match alookup cds uid with
  | some last =>
      if now_ts - last < window then (false, cds)
      else (true, aset cds uid now_ts)
  | none => (true, aset cds uid now_ts)

/-! ## Batched summary parsing (`src/main.py` `parse_batch_summary`) -/

/-- The value-collection loop of `parse_batch_summary`: for each expected
key in order, `data.get(k)` must be a string, which is stripped. -/
def collectVals (kvs : List (String × Json)) : List String → Option (List (String × String))
  | [] => some []
  | k :: ks =>
      match getKey kvs k with
      | some (Json.str v) =>
          match collectVals kvs ks with
          | some out => some ((k, pyStrip v) :: out)
          | none => none
      | _ => none

/-- Embedding of `parse_batch_summary` (`src/main.py:328`).  `parsed` is the result of
`json.loads` on the oracle text (`none` = parse failure). -/
def parse_batch_summary (parsed : Option Json) (expected_keys : List String) :
    Option (List (String × String)) :=
  match parsed with
  | some (Json.obj kvs) =>
      if keySetEq (kvs.map Prod.fst) expected_keys then collectVals kvs expected_keys
      else none
  | _ => none

/-- Validity condition written from the spec's words, for comparison with
`parse_batch_summary`: the input parses as JSON to an object whose key set
equals the expected key set exactly and every value is a string. -/
def batchValidSpec (parsed : Option Json) (expected_keys : List String) : Bool :=
  match parsed with
  | some (Json.obj kvs) =>
      keySetEq (kvs.map Prod.fst) expected_keys
        && expected_keys.all (fun k =>
            match getKey kvs k with
            | some (Json.str _) => true
            | _ => false)
  | _ => false

/-! ## Outreach proposal parsing (`src/outreach.py` `parse_outreach`) -/

/-- Embedding of `parse_outreach` (`src/outreach.py:8`): non-JSON (`none`) or non-array
input yields `[]`; list items that are not objects with string `to` and
`message` are skipped; both fields are stripped. -/
def parse_outreach (parsed : Option Json) : List (String × String) :=
  match parsed with
  | some (Json.arr items) =>
      items.filterMap (fun item =>
        match item with
        | Json.obj kvs =>
            match getKey kvs "to", getKey kvs "message" with
            | some (Json.str dst), some (Json.str m) => some (pyStrip dst, pyStrip m)
            | _, _ => none
        | _ => none)
  | _ => []

/-! ## Data model (`src/database.py` schema) -/

/-- A row of the `players` table (`discord_user_id` is the association key;
`country` is nullable TEXT). -/
structure PlayerRow where
  display_name : String
  country : Option String
deriving DecidableEq

/-- One message of a thread's JSON ledger. -/
structure Msg where
  role : String
  content : String
deriving DecidableEq

/-- A row of the `threads` table. -/
structure ThreadRow where
  messages : List Msg
  summary : String
  last_updated : String
  summary_last_updated : String
deriving DecidableEq

/-- SQL truthiness of a nullable TEXT country: neither NULL nor `''`. -/
def truthy : Option String → Bool
  | some c => c ≠ ""
  | none => false

/-- The whole persistent store plus the singleton `game_state` row. -/
structure DBState where
  players : List (Nat × PlayerRow)
  threads : List (Nat × ThreadRow)
  phase : String
  state_text : String
  cooldowns : List (Nat × Rat)
  ai_memory : String
deriving DecidableEq

/-! ## Claim registry (`src/database.py` `claim_country`) -/

/-- Embedding of `VALID_COUNTRIES` / `self.valid_countries`. -/
def VALID_COUNTRIES : List String :=
  ["England", "France", "Germany", "Italy", "Austria", "Russia", "Turkey"]

/-- The unknown-country message (`', '.join(sorted(...))` sorts the set
alphabetically). -/
def unknownCountryMsg (c : String) : String :=
  "Unknown country '" ++ c ++
    "'. Valid: Austria, England, France, Germany, Italy, Russia, Turkey"

/-- The already-claimed message. -/
def alreadyClaimedMsg (c : String) : String :=
  "You already claimed **" ++ c ++ "**. Claims for you are locked."

/-- The country-taken message raised from the UNIQUE-index conflict. -/
def countryTakenMsg (c : String) : String :=
  "❌ **" ++ c ++ "** is already claimed by another player."

/-- The success message. -/
def registeredMsg (c : String) : String :=
  "✅ Registered you as **" ++ c ++ "**."

/-- The partial UNIQUE index `idx_players_country_unique` on
`lower(country)` (`src/database.py:39-43`): inserting or updating user
`uid`'s row to (non-empty) `country` raises `IntegrityError` iff some other
row already holds a non-empty country equal up to ASCII case. -/
def conflictExists (players : List (Nat × PlayerRow)) (uid : Nat) (country : String) : Bool :=
  players.any (fun e =>
    e.1 ≠ uid && truthy e.2.country
      && lowerStr (e.2.country.getD "") == lowerStr country)

/-- Embedding of `claim_country` (`src/database.py:98-153`).  Returns
`(new players table, ok, message)`.  The three rejection branches commit
nothing; the upsert both inserts and refreshes `display_name`, and sets
`country` only when the stored one is NULL or empty (which is the only way
this point is reached). -/
def claim_country (players : List (Nat × PlayerRow)) (uid : Nat)
    (dname : String) (country0 : String) :
    List (Nat × PlayerRow) × Bool × String :=
  let country := pyStrip country0
  if memStr country VALID_COUNTRIES then
    match alookup players uid with
    | some row =>
        if truthy row.country then
          (players, false, alreadyClaimedMsg (row.country.getD ""))
        else if conflictExists players uid country then
          (players, false, countryTakenMsg country)
        else
          (aset players uid ⟨dname, some country⟩, true, registeredMsg country)
    | none =>
        if conflictExists players uid country then
          (players, false, countryTakenMsg country)
        else
          (aset players uid ⟨dname, some country⟩, true, registeredMsg country)
  else (players, false, unknownCountryMsg country)

/-- Embedding of `get_player_country` (`src/database.py:92`). -/
def get_player_country (players : List (Nat × PlayerRow)) (uid : Nat) : Option String :=
  match alookup players uid with
  | some row => row.country
  | none => none

/-- The country-uniqueness invariant of the `players` table: two distinct
users never both hold non-empty countries equal up to case. -/
def countryUniqueInv (players : List (Nat × PlayerRow)) : Prop :=
  ∀ u1 r1 u2 r2, alookup players u1 = some r1 → alookup players u2 = some r2 →
    u1 ≠ u2 → truthy r1.country = true → truthy r2.country = true →
    lowerStr (r1.country.getD "") ≠ lowerStr (r2.country.getD "")

/-! ## Thread store (`src/database.py` `load_thread` / `save_thread` /
`update_thread_summary_and_truncate` / `get_threads_needing_summary_refresh`) -/

/-- The fields returned by `load_thread` (`src/database.py:169`). -/
structure LoadedThread where
  messages : List Msg
  summary : String
  summary_last_updated : String
deriving DecidableEq

/-- Embedding of `load_thread`: defaults for a missing row. -/
def load_thread (threads : List (Nat × ThreadRow)) (uid : Nat) : LoadedThread :=
  match alookup threads uid with
  | some r => ⟨r.messages, r.summary, r.summary_last_updated⟩
  | none => ⟨[], "", ""⟩

/-- Embedding of `save_thread` (`src/database.py:184`): upserts the row, stamps
`last_updated := now`; `summary_last_updated` is the explicit argument when
given, else the existing row's value, else `now` for a fresh row. -/
def save_thread (threads : List (Nat × ThreadRow)) (uid : Nat)
    (messages : List Msg) (summary : String)
    (summary_last_updated : Option String) (now : String) :
    List (Nat × ThreadRow) :=
  let summary_ts :=
    match summary_last_updated with
    | some ts => ts
    | none =>
        match alookup threads uid with
        | some r => r.summary_last_updated
        | none => now
  aset threads uid ⟨messages, summary, now, summary_ts⟩

/-- Embedding of `update_thread_summary_and_truncate` (`src/database.py:263`): truncate
the ledger to the last `keep` messages, replace the summary, stamp
`summary_last_updated := now`.  The SQL `UPDATE ... WHERE` is a no-op when
the row is missing. -/
def update_thread_summary_and_truncate (threads : List (Nat × ThreadRow))
    (uid : Nat) (new_summary : String) (keep : Nat) (now : String) :
    List (Nat × ThreadRow) :=
  match alookup threads uid with
  | some r =>
      let msgs := if 0 < keep then lastN r.messages keep else []
      aset threads uid ⟨msgs, new_summary, r.last_updated, now⟩
  | none => threads

/-- The staleness condition of the refresh query
(`t.summary_last_updated = '' OR t.last_updated > t.summary_last_updated`). -/
def stale (t : ThreadRow) : Bool :=
  t.summary_last_updated == "" || strLt t.summary_last_updated t.last_updated

/-- One output row of `get_threads_needing_summary_refresh`. -/
structure RefreshRow where
  user_id : Nat
  country : String
  summary : String
  messages : List Msg
  last_updated : String
  summary_last_updated : String
deriving DecidableEq

/-- Embedding of `get_threads_needing_summary_refresh` (`src/database.py:284`): threads
joined to players on the user id, restricted to `country IS NOT NULL` and
stale rows. -/
def get_threads_needing_summary_refresh (threads : List (Nat × ThreadRow))
    (players : List (Nat × PlayerRow)) : List RefreshRow :=
  threads.filterMap (fun e =>
    match alookup players e.1 with
    | some p =>
        match p.country with
        | some c =>
            if stale e.2 then
              some ⟨e.1, c, e.2.summary, e.2.messages,
                    e.2.last_updated, e.2.summary_last_updated⟩
            else none
        | none => none
    | none => none)

/-- Embedding of `get_all_summaries_for_claimed_players` (`src/database.py:251`). -/
def get_all_summaries_for_claimed_players (threads : List (Nat × ThreadRow))
    (players : List (Nat × PlayerRow)) : List (String × String) :=
  threads.filterMap (fun e =>
    match alookup players e.1 with
    | some p =>
        match p.country with
        | some c => some (c, pyStrip e.2.summary)
        | none => none
    | none => none)

/-! ## Orders pipeline (`src/main.py:573-619`, `orders` branch of
`on_message`) -/

/-- The oracle responses consumed by one `orders` command: the batched
summariser reply (as its `json.loads` result) and the two order-generation
replies. -/
structure OrdersOracle where
  batchReply : Option Json
  ordersReply1 : String
  ordersReply2 : String

/-- The observable outcome of the `orders` command. -/
inductive OrdersOutcome where
  | missingPhaseState : OrdersOutcome
  | summaryAbort : OrdersOutcome
  | noValidOrders : OrdersOutcome
  | ok (orders : List String) : OrdersOutcome
deriving DecidableEq

/-- Embedding of `country_to_uid[country]`: Python dict-comprehension lookup, in which a
later row with the same key overwrites an earlier one. -/
def lookupLastCountry (rows : List RefreshRow) (c : String) : Option Nat :=
  match (rows.reverse.find? (fun r => r.country == c)) with
  | some r => some r.user_id
  | none => none

/-- The per-country application loop of the `orders` branch
(`src/main.py:592-595`): each parsed summary is applied with
`update_thread_summary_and_truncate(uid, s, keep_last_n_msgs=2)`. -/
def applyBatchSummaries (threads : List (Nat × ThreadRow)) (rows : List RefreshRow)
    (summaries : List (String × String)) (now : String) : List (Nat × ThreadRow) :=
  summaries.foldl (fun th cs =>
    match lookupLastCountry rows cs.1 with
    | some uid => update_thread_summary_and_truncate th uid cs.2 2 now
    | none => th) threads

/-- The `orders` control command (`src/main.py:573-619`): requires phase and
state, runs the batched refresh when any thread is stale (failing closed on
a bad summariser reply), then generates orders with one retry. -/
def orders_command (db : DBState) (o : OrdersOracle) (now : String) :
    DBState × OrdersOutcome :=
  if db.phase == "" || pyStrip db.state_text == "" then (db, OrdersOutcome.missingPhaseState)
  else
    let rows := get_threads_needing_summary_refresh db.threads db.players
    let step1 : Option DBState :=
      if rows.isEmpty then some db
      else
        let expected_keys := rows.map (fun r => r.country)
        match parse_batch_summary o.batchReply expected_keys with
        | some summaries =>
            some { db with threads := applyBatchSummaries db.threads rows summaries now }
        | none => none
    match step1 with
    | none => (db, OrdersOutcome.summaryAbort)
    | some db1 =>
        match generate_orders o.ordersReply1 o.ordersReply2 with
        | some orders => (db1, OrdersOutcome.ok orders)
        | none => (db1, OrdersOutcome.noValidOrders)

/-! ## Outreach scheduler (`src/outreach.py` `send_outreach`) -/

/-- The `country_to_uid` dict comprehension of `send_outreach`
(`src/outreach.py:27`): skips falsy countries, later claims overwrite. -/
def buildRecipients (claims : List (String × String × Nat)) : List (String × Nat) :=
  claims.foldl (fun d cdu => if cdu.1 ≠ "" then aset d cdu.1 cdu.2.2 else d) []

/-- Embedding of `country_to_uid.pop(AI_COUNTRY, None)`. -/
def removeKey (d : List (String × Nat)) (k : String) : List (String × Nat) :=
  d.filter (fun p => p.1 ≠ k)

/-- The dispatch loop of `send_outreach` (`src/outreach.py:45-71`).
`sendOk c` tells whether the `try` block for recipient `c` (user fetch,
Discord send, and thread save) completes without raising; on an exception
the proposal is skipped whole.  Returns the updated threads table and the
list of `(recipient country, delivered text)` in delivery order. -/
def outreach_loop (recips : List (String × Nat)) (sendOk : String → Bool)
    (budget : Nat) (now : String) :
    List (String × String) → List String → Nat → List (Nat × ThreadRow) →
    List (Nat × ThreadRow) × List (String × String)
  | [], _, _, th => (th, [])
  | p :: ps, used, sent, th =>
      if budget ≤ sent then (th, [])
      else
        match alookup recips p.1 with
        | none => outreach_loop recips sendOk budget now ps used sent th
        | some uid =>
            if memStr p.1 used then outreach_loop recips sendOk budget now ps used sent th
            else if p.2 == "" then outreach_loop recips sendOk budget now ps used sent th
            else
              let msg :=
                if 2000 < p.2.data.length then String.mk (p.2.data.take 1999) ++ "…"
                else p.2
              if sendOk p.1 then
                let lt := load_thread th uid
                let th1 := save_thread th uid (lt.messages ++ [⟨"assistant", msg⟩])
                  lt.summary none now
                let rest := outreach_loop recips sendOk budget now ps (p.1 :: used) (sent + 1) th1
                (rest.1, (p.1, msg) :: rest.2)
              else outreach_loop recips sendOk budget now ps used sent th

/-- Embedding of `send_outreach` (`src/outreach.py:25`): builds the allowed recipient
set (claimed countries minus the AI's own), returns immediately when it is
empty, parses the oracle reply defensively, and dispatches under the
budget.  The number of delivered messages is the length of the returned
list. -/
def send_outreach (claims : List (String × String × Nat)) (aiCountry : String)
    (parsed : Option Json) (budget : Nat) (sendOk : String → Bool)
    (now : String) (threads : List (Nat × ThreadRow)) :
    List (Nat × ThreadRow) × List (String × String) :=
  let recips := removeKey (buildRecipients claims) aiCountry
  if recips.isEmpty then (threads, [])
  else
    let proposals := parse_outreach parsed
    outreach_loop recips sendOk budget now proposals [] 0 threads

/-! ## DM handler (`src/main.py:625-670`, DM branch of `on_message`) -/

/-- Embedding of `maybe_summarize_thread` (`src/main.py:417`): inline per-user
compaction.  `K` is `RAW_TURNS_TO_KEEP`; `oracleReply` is the summariser
response (used only when compaction triggers).  Returns
`(summary, messages, did_refresh)`. -/
def maybe_summarize_thread (K : Nat) (summary : String) (messages : List Msg)
    (oracleReply : String) : String × List Msg × Bool :=
  if messages.length ≤ K then (summary, messages, false)
  else (pyStrip oracleReply, lastN messages K, true)

/-- Python `dm_text.split(maxsplit=1)`. -/
def splitMax1 (s : String) : List String :=
  let l := s.data.dropWhile isSpaceChar
  let tok := l.takeWhile (fun c => !isSpaceChar c)
  let rest := (l.dropWhile (fun c => !isSpaceChar c)).dropWhile isSpaceChar
  if tok.isEmpty then []
  else if rest.isEmpty then [String.mk tok]
  else [String.mk tok, String.mk rest]

/-- The user-visible result of one inbound DM. -/
inductive DMResult where
  | droppedCooldown : DMResult
  | claimUsage : DMResult
  | claimReply (msg : String) : DMResult
  | needClaimFirst : DMResult
  | replied (text : String) : DMResult
  | lockedNotice : DMResult
deriving DecidableEq

/-- The oracle responses a DM may consume. -/
structure DMOracle where
  summarizerReply : String
  dmReply : String

/-- The full effect of one inbound DM. -/
structure DMOutcome where
  db : DBState
  result : DMResult
  calledOracle : Bool
deriving DecidableEq

/-- The DM branch of `on_message` (`src/main.py:625-670`): cooldown gate,
`claim` command handling, claim-first rejection, then thread append with
optional inline compaction and a Completion Service reply.  `now_ts` is the
POSIX timestamp of the cooldown check, `nowSummary` the timestamp taken at
the `save_thread` call site when compaction refreshed the summary
(`src/main.py:668`), `nowSave` the timestamp taken inside `save_thread`. -/
def handle_dm (db : DBState) (uid : Nat) (dname : String) (text : String)
    (now_ts window : Rat) (K : Nat) (o : DMOracle)
    (nowSummary nowSave : String) : DMOutcome :=
  let cool := check_and_update_cooldown db.cooldowns uid now_ts window
  if !cool.1 then ⟨db, DMResult.droppedCooldown, false⟩
  else
    let db := { db with cooldowns := cool.2 }
    let dm_text := pyStrip text
    if startsWith "claim" (lowerStr dm_text) then
      match splitMax1 dm_text with
      | [_, arg] =>
          let res := claim_country db.players uid dname arg
          ⟨{ db with players := res.1 }, DMResult.claimReply res.2.2, false⟩
      | _ => ⟨db, DMResult.claimUsage, false⟩
    else if !truthy (get_player_country db.players uid) then
      ⟨db, DMResult.needClaimFirst, false⟩
    else
      let lt := load_thread db.threads uid
      let msgs0 := lt.messages ++ [⟨"user", dm_text⟩]
      let summ := maybe_summarize_thread K lt.summary msgs0 o.summarizerReply
      let msgs1 := summ.2.1 ++ [⟨"assistant", o.dmReply⟩]
      let th1 := save_thread db.threads uid msgs1 summ.1
        (if summ.2.2 then some nowSummary else none) nowSave
      ⟨{ db with threads := th1 }, DMResult.replied o.dmReply, true⟩

/-! ## Press lock -/

/-- Modelled from the spec: the press-lock state machine of spec §4.4 is
part of the repository's orchestration layer that is absent from `src/`
(no lock flag or gate exists in any file under `src/`; the DM branch of
`src/main.py` processes every DM).  States, initial state and transitions
follow the spec's words exactly. -/
inductive LockState where
  | unlocked : LockState
  | locked : LockState
deriving DecidableEq

/-- Modelled from the spec: the control events driving press-lock
transitions — an `orders` command (with the flag telling whether it
produced at least one valid order line) and a completed `outreach` command. -/
inductive GateEvent where
  | ordersCommand (producedValidLine : Bool) : GateEvent
  | outreachCommand : GateEvent
deriving DecidableEq

/-- Modelled from the spec: initial press-lock state (§4.4 "Initial state:
UNLOCKED"). -/
def pressLockInit : LockState := LockState.unlocked

/-- Modelled from the spec: press-lock transition function (§4.4):
`UNLOCKED → LOCKED` exactly when an `orders` command produces at least one
valid line; `LOCKED → UNLOCKED` exactly when an `outreach` command
completes, with any number of sends. -/
def pressLockStep : LockState → GateEvent → LockState
  | l, GateEvent.ordersCommand ok => if ok then LockState.locked else l
  | _, GateEvent.outreachCommand => LockState.unlocked

/-- Modelled from the spec: the fixed rejection notice for DMs arriving
while the press lock is engaged (§4.4; the spec fixes the notice, not its
wording). -/
def lockedNoticeText : String :=
  "Press is locked until the next outreach cycle completes."

/-- Modelled from the spec: the DM gate under the press lock (§4.4).  While
`LOCKED`, the DM handler is not reached at all: nothing is appended, the
cooldown table is untouched and the Completion Service is not called. -/
def handle_dm_gated (lock : LockState) (db : DBState) (uid : Nat)
    (dname : String) (text : String) (now_ts window : Rat) (K : Nat)
    (o : DMOracle) (nowSummary nowSave : String) : DMOutcome :=
  match lock with
  | LockState.locked => ⟨db, DMResult.lockedNotice, false⟩
  | LockState.unlocked => handle_dm db uid dname text now_ts window K o nowSummary nowSave

/-! ## Association-list lemmas -/

theorem alookup_aset_self {κ α : Type} [DecidableEq κ] (l : List (κ × α)) (k : κ) (v : α) :
    alookup (aset l k v) k = some v := by
  induction l with
  | nil => simp [aset, alookup]
  | cons hd tl ih =>
      obtain ⟨k', v'⟩ := hd
      by_cases h : k' = k
      · simp [aset, h, alookup]
      · simp [aset, h, alookup, ih]

theorem alookup_aset_ne {κ α : Type} [DecidableEq κ] (l : List (κ × α)) (k k' : κ) (v : α)
    (h : k' ≠ k) : alookup (aset l k v) k' = alookup l k' := by
  induction l with
  | nil => simp [aset, alookup, Ne.symm h]
  | cons hd tl ih =>
      obtain ⟨k0, v0⟩ := hd
      by_cases h0 : k0 = k
      · subst h0
        simp [aset, alookup, Ne.symm h]
      · by_cases h1 : k0 = k'
        · subst h1
          simp [aset, h0, alookup]
        · simp [aset, h0, alookup, h1, ih]

theorem mem_aset_self {κ α : Type} [DecidableEq κ] (l : List (κ × α)) (k : κ) (v : α) :
    (k, v) ∈ aset l k v := by
  induction l with
  | nil => simp [aset]
  | cons hd tl ih =>
      obtain ⟨k', v'⟩ := hd
      by_cases h : k' = k
      · simp [aset, h]
      · simp only [aset, if_neg h]
        exact List.mem_cons_of_mem _ ih

theorem alookup_mem {κ α : Type} [DecidableEq κ] {l : List (κ × α)} {k : κ} {v : α}
    (h : alookup l k = some v) : (k, v) ∈ l := by
  induction l with
  | nil => simp [alookup] at h
  | cons hd tl ih =>
      obtain ⟨k', v'⟩ := hd
      by_cases he : k' = k
      · subst he
        simp [alookup] at h
        simp [h]
      · simp only [alookup, if_neg he] at h
        exact List.mem_cons_of_mem _ (ih h)

theorem alookup_isSome_mem_keys {κ α : Type} [DecidableEq κ] {l : List (κ × α)} {k : κ} {v : α}
    (h : alookup l k = some v) : k ∈ l.map Prod.fst := by
  have := alookup_mem h
  exact List.mem_map.mpr ⟨(k, v), this, rfl⟩

theorem memStr_iff (x : String) (l : List String) : memStr x l = true ↔ x ∈ l := by
  simp only [memStr, List.any_eq_true, beq_iff_eq]
  constructor
  · rintro ⟨y, hy, rfl⟩; exact hy
  · intro hx; exact ⟨x, hx, rfl⟩

/-! ## Cooldown lemmas -/

theorem cooldown_allowed_state (cds : List (Nat × Rat)) (uid : Nat) (now_ts window : Rat)
    (h : (check_and_update_cooldown cds uid now_ts window).1 = true) :
    (check_and_update_cooldown cds uid now_ts window).2 = aset cds uid now_ts := by
  unfold check_and_update_cooldown at h ⊢
  cases hl : alookup cds uid with
  | none => simp [hl]
  | some last =>
      simp only [hl] at h ⊢
      by_cases hc : now_ts - last < window
      · simp [hc] at h
      · simp [hc]

theorem cooldown_denied_state (cds : List (Nat × Rat)) (uid : Nat) (now_ts window : Rat)
    (h : (check_and_update_cooldown cds uid now_ts window).1 = false) :
    (check_and_update_cooldown cds uid now_ts window).2 = cds := by
  unfold check_and_update_cooldown at h ⊢
  cases hl : alookup cds uid with
  | none => simp [hl] at h
  | some last =>
      simp only [hl] at h ⊢
      by_cases hc : now_ts - last < window
      · simp [hc]
      · simp [hc] at h

/-- C7: `check_and_update_cooldown` allows iff no timestamp is stored or the
window has elapsed (`now - last ≥ window`); an allowed call records `now` as
the user's new timestamp and changes nothing else; a denied call leaves the
table completely unchanged.  Consequently, after an allowed message at `t`,
a second message at `t + window - ε` (ε > 0) is denied without state change
and one at `t + window + ε` is allowed. -/
theorem cooldown_check_and_set :
    (∀ (cds : List (Nat × Rat)) (uid : Nat) (now_ts window : Rat),
      ((check_and_update_cooldown cds uid now_ts window).1 = true ↔
        (alookup cds uid = none ∨
          ∃ last, alookup cds uid = some last ∧ window ≤ now_ts - last))
      ∧ ((check_and_update_cooldown cds uid now_ts window).1 = true →
          (check_and_update_cooldown cds uid now_ts window).2 = aset cds uid now_ts)
      ∧ ((check_and_update_cooldown cds uid now_ts window).1 = false →
          (check_and_update_cooldown cds uid now_ts window).2 = cds))
    ∧ (∀ (cds : List (Nat × Rat)) (uid : Nat) (t window eps : Rat),
      0 < eps →
      (check_and_update_cooldown (aset cds uid t) uid (t + window - eps) window).1 = false
      ∧ (check_and_update_cooldown (aset cds uid t) uid (t + window - eps) window).2
          = aset cds uid t
      ∧ (check_and_update_cooldown (aset cds uid t) uid (t + window + eps) window).1 = true) := by
  constructor
  · intro cds uid now_ts window
    refine ⟨?_, cooldown_allowed_state cds uid now_ts window,
      cooldown_denied_state cds uid now_ts window⟩
    unfold check_and_update_cooldown
    cases hl : alookup cds uid with
    | none => simp [hl]
    | some last =>
        by_cases hc : now_ts - last < window
        · simp only [hl, if_pos hc]
          constructor
          · intro h; exact absurd h (by simp)
          · rintro (h | ⟨l2, hl2, hw⟩)
            · exact (Option.some_ne_none last h).elim
            · injection hl2 with he
              exact absurd hw (not_le.mpr (he ▸ hc))
        · simp only [hl, if_neg hc]
          constructor
          · intro _
            exact Or.inr ⟨last, rfl, le_of_not_lt hc⟩
          · intro _
            trivial
  · intro cds uid t window eps heps
    have hl : alookup (aset cds uid t) uid = some t := alookup_aset_self cds uid t
    have h1 : (t + window - eps) - t < window := by linarith
    have h2 : ¬ ((t + window + eps) - t < window) := by
      intro h; linarith
    refine ⟨?_, ?_, ?_⟩
    · unfold check_and_update_cooldown
      simp [hl, h1]
    · unfold check_and_update_cooldown
      simp [hl, h1]
    · unfold check_and_update_cooldown
      simp [hl, h2]

/-- Witness for C7: with window 30 and an allowed message at time 0, a
second message at time 29 is denied and one at time 31 is allowed. -/
theorem cooldown_check_and_set_witness :
    (check_and_update_cooldown (aset [] 5 (0 : Rat)) 5 ((0 : Rat) + 30 - 1) 30).1 = false
    ∧ (check_and_update_cooldown (aset [] 5 (0 : Rat)) 5 ((0 : Rat) + 30 + 1) 30).1 = true := by
  have h := cooldown_check_and_set.2 [] 5 (0 : Rat) 30 1 (by norm_num)
  exact ⟨h.1, h.2.2⟩

/-! ## C5: order validator and retry -/

/-- C5: on input containing the lines `A Par - Bur` and `I am attacking`,
`extract_valid_orders` returns exactly `["A Par - Bur"]`; every line it
ever returns matches the order grammar; and the pipeline uses the first
response's valid lines if any, otherwise makes exactly one retry and uses
the second response's valid lines, otherwise fails closed with no output. -/
theorem order_validator_and_retry :
    extract_valid_orders "A Par - Bur\nI am attacking" = ["A Par - Bur"]
    ∧ (∀ (t l : String), l ∈ extract_valid_orders t → matchesOrder l = true)
    ∧ (∀ raw1 raw2 : String,
        (extract_valid_orders raw1 ≠ [] →
          generate_orders raw1 raw2 = some (extract_valid_orders raw1))
        ∧ (extract_valid_orders raw1 = [] → extract_valid_orders raw2 ≠ [] →
          generate_orders raw1 raw2 = some (extract_valid_orders raw2))
        ∧ (extract_valid_orders raw1 = [] → extract_valid_orders raw2 = [] →
          generate_orders raw1 raw2 = none)) := by
  refine ⟨by decide, ?_, ?_⟩
  · intro t l hl
    unfold extract_valid_orders at hl
    exact (List.mem_filter.mp hl).2
  · intro raw1 raw2
    refine ⟨?_, ?_, ?_⟩
    · intro h1
      unfold generate_orders
      simp [h1]
    · intro h1 h2
      unfold generate_orders
      simp [h1, h2]
    · intro h1 h2
      unfold generate_orders
      simp [h1, h2]

/-- Witness for C5: the validator accepts `A Par - Bur` from the canonical
mixed input, and the retry contract at concrete inputs: garbage then
garbage fails closed, garbage then one valid line returns that line. -/
theorem order_validator_and_retry_witness :
    matchesOrder "A Par - Bur" = true
    ∧ generate_orders "I am attacking" "total nonsense" = none
    ∧ generate_orders "I am attacking" "A Par - Bur" = some ["A Par - Bur"] := by
  refine ⟨?_, ?_, ?_⟩
  · exact order_validator_and_retry.2.1 "A Par - Bur\nI am attacking" "A Par - Bur"
      (by decide)
  · exact (order_validator_and_retry.2.2 "I am attacking" "total nonsense").2.2
      (by decide) (by decide)
  · have h := (order_validator_and_retry.2.2 "I am attacking" "A Par - Bur").2.1
      (by decide) (by decide)
    rw [h]
    decide

/-! ## C3: claim permanence -/

/-- C3 (amended): once a user's stored claim is a non-empty country, every
subsequent `claim_country` call fails and leaves the table unchanged; the
failure message names the existing claimed country whenever the attempted
name (stripped) is one of the seven valid countries — an attempt with an
unknown name instead fails with the unknown-country message. -/
theorem claim_permanence_amended :
    ∀ (players : List (Nat × PlayerRow)) (uid : Nat) (dn c : String)
      (row : PlayerRow) (c0 : String),
      alookup players uid = some row → row.country = some c0 → c0 ≠ "" →
      (claim_country players uid dn c).1 = players
      ∧ (claim_country players uid dn c).2.1 = false
      ∧ (memStr (pyStrip c) VALID_COUNTRIES = true →
          (claim_country players uid dn c).2.2 = alreadyClaimedMsg c0) := by
  intro players uid dn c row c0 hrow hc hc0
  have ht : truthy row.country = true := by
    rw [hc]; simp [truthy, hc0]
  unfold claim_country
  by_cases hv : memStr (pyStrip c) VALID_COUNTRIES = true
  · simp only [hv, if_true, hrow, ht]
    refine ⟨by trivial, by trivial, fun _ => ?_⟩
    rw [hc]
    rfl
  · have hv' : memStr (pyStrip c) VALID_COUNTRIES = false := by
      cases h : memStr (pyStrip c) VALID_COUNTRIES
      · rfl
      · exact absurd h hv
    simp only [hv', Bool.false_eq_true, if_false]
    exact ⟨by trivial, by trivial, fun h => absurd h (by simp [hv'])⟩

/-- Witness for C3's amended statement: a user who claimed France and tries
`claim France` again is refused with the message naming France, with the
table unchanged. -/
theorem claim_permanence_amended_witness :
    (claim_country [(1, ⟨"bob", some "France"⟩)] 1 "bob" "France").1
      = [(1, ⟨"bob", some "France"⟩)]
    ∧ (claim_country [(1, ⟨"bob", some "France"⟩)] 1 "bob" "France").2.2
      = alreadyClaimedMsg "France" := by
  have h := claim_permanence_amended [(1, ⟨"bob", some "France"⟩)] 1 "bob" "France"
    ⟨"bob", some "France"⟩ "France" (by decide) rfl (by decide)
  exact ⟨h.1, h.2.2 (by decide)⟩

/-- C3 counterexample: a user whose stored claim is France calls
`claim_country` with the unknown name `Atlantis`; the call fails, but its
message is the unknown-country text, which is not the already-claimed
notice naming France — so the claim as stated (the failure message names
the existing claimed country for any `c`) is false. -/
theorem claim_permanence_counterexample :
    (claim_country [(1, ⟨"bob", some "France"⟩)] 1 "bob" "Atlantis").2.1 = false
    ∧ (claim_country [(1, ⟨"bob", some "France"⟩)] 1 "bob" "Atlantis").2.2
        = unknownCountryMsg "Atlantis"
    ∧ unknownCountryMsg "Atlantis" ≠ alreadyClaimedMsg "France" := by
  decide

/-! ## C9: what advances `summary_last_updated` -/

/-- C9 counterexample: a plain inbound DM that triggers the inline per-user
compaction (the `did_refresh` branch of `src/main.py:659-668`, here with
`RAW_TURNS_TO_KEEP = 1`) advances `summary_last_updated` from `"A"` to
`"B"` and leaves the thread non-stale even though its content changed — so
the batched refresh is not the only path that advances that timestamp. -/
theorem summary_stamp_counterexample :
    (handle_dm
        ⟨[(1, ⟨"bob", some "France"⟩)],
         [(1, ⟨[⟨"user", "hi"⟩], "oldsum", "A", "A"⟩)],
         "S1901", "state", [], ""⟩
        1 "bob" "hello there" 0 30 1 ⟨"new summary", "reply"⟩ "B" "B").db.threads
      = [(1, ⟨[⟨"user", "hello there"⟩, ⟨"assistant", "reply"⟩],
              "new summary", "B", "B"⟩)]
    ∧ stale ⟨[⟨"user", "hello there"⟩, ⟨"assistant", "reply"⟩],
             "new summary", "B", "B"⟩ = false
    ∧ ("B" : String) ≠ "A" := by
  decide

/-- C9 (amended): a non-batched thread save that passes no explicit
timestamp (a DM append without inline compaction, or an outreach append)
leaves `summary_last_updated` of an existing row unchanged and leaves the
thread stale whenever the stored summary timestamp is empty or precedes
the new content timestamp; the DM path with inline compaction, however,
stamps `summary_last_updated` to the explicit timestamp it passes. -/
theorem summary_stamp_amended :
    ∀ (ths : List (Nat × ThreadRow)) (uid : Nat) (msgs : List Msg)
      (summary now : String) (t : ThreadRow),
      alookup ths uid = some t →
      (alookup (save_thread ths uid msgs summary none now) uid
          = some ⟨msgs, summary, now, t.summary_last_updated⟩
        ∧ ((t.summary_last_updated = "" ∨ strLt t.summary_last_updated now = true) →
            stale ⟨msgs, summary, now, t.summary_last_updated⟩ = true))
      ∧ (∀ ts, alookup (save_thread ths uid msgs summary (some ts) now) uid
          = some ⟨msgs, summary, now, ts⟩) := by
  intro ths uid msgs summary now t hrow
  refine ⟨⟨?_, ?_⟩, ?_⟩
  · unfold save_thread
    simp only [hrow]
    exact alookup_aset_self ths uid _
  · intro hdisj
    rcases hdisj with he | hlt
    · simp [stale, he]
    · simp [stale, hlt]
  · intro ts
    unfold save_thread
    exact alookup_aset_self ths uid _

/-- Witness for C9's amended statement: an outreach-style save (no explicit
timestamp) on a row whose summary timestamp `"A"` precedes the new content
timestamp `"B"` keeps `summary_last_updated = "A"` and leaves the row
stale; the compaction-style save with explicit `"B"` stamps `"B"`. -/
theorem summary_stamp_amended_witness :
    alookup (save_thread [(1, ⟨[], "s", "A", "A"⟩)] 1 [⟨"assistant", "m"⟩] "s" none "B") 1
      = some ⟨[⟨"assistant", "m"⟩], "s", "B", "A"⟩
    ∧ stale ⟨[⟨"assistant", "m"⟩], "s", "B", "A"⟩ = true
    ∧ alookup (save_thread [(1, ⟨[], "s", "A", "A"⟩)] 1 [⟨"assistant", "m"⟩] "s" (some "B") "B") 1
      = some ⟨[⟨"assistant", "m"⟩], "s", "B", "B"⟩ := by
  have h := summary_stamp_amended [(1, ⟨[], "s", "A", "A"⟩)] 1 [⟨"assistant", "m"⟩]
    "s" "B" ⟨[], "s", "A", "A"⟩ (by decide)
  exact ⟨h.1.1, h.1.2 (Or.inr (by decide)), h.2 "B"⟩

/-! ## C4: batched summary validation fails closed -/

theorem collectVals_isSome (kvs : List (String × Json)) (ks : List String) :
    (collectVals kvs ks).isSome =
      ks.all (fun k =>
        match getKey kvs k with
        | some (Json.str _) => true
        | _ => false) := by
  induction ks with
  | nil => rfl
  | cons k ks ih =>
      simp only [collectVals, List.all_cons]
      cases hk : getKey kvs k with
      | none => simp [hk]
      | some j =>
          cases j with
          | str v =>
              simp only [hk]
              cases hc : collectVals kvs ks with
              | none =>
                  rw [hc] at ih
                  simp [← ih]
              | some out =>
                  rw [hc] at ih
                  simp [← ih]
          | null => simp [hk]
          | bool b => simp [hk]
          | num n => simp [hk]
          | arr xs => simp [hk]
          | obj kvs2 => simp [hk]

theorem isEmpty_false_of_ne_nil {α : Type} {l : List α} (h : l ≠ []) :
    l.isEmpty = false := by
  cases l with
  | nil => exact absurd rfl h
  | cons a l => rfl

/-- C4: `parse_batch_summary` returns a map exactly when its input parses
as JSON to an object whose key set equals the expected key set and every
looked-up value is a string (the spec-side condition `batchValidSpec`);
and when the refresh-needing row set is non-empty and the parse fails, the
`orders` command leaves the entire store unchanged (no summary update, no
ledger truncation) and aborts order generation for the cycle. -/
theorem batch_summary_fails_closed :
    (∀ (parsed : Option Json) (expected : List String),
      (parse_batch_summary parsed expected).isSome = batchValidSpec parsed expected)
    ∧ (∀ (db : DBState) (o : OrdersOracle) (now : String),
        db.phase ≠ "" → pyStrip db.state_text ≠ "" →
        get_threads_needing_summary_refresh db.threads db.players ≠ [] →
        parse_batch_summary o.batchReply
          ((get_threads_needing_summary_refresh db.threads db.players).map
            (fun r => r.country)) = none →
        orders_command db o now = (db, OrdersOutcome.summaryAbort)) := by
  constructor
  · intro parsed expected
    cases parsed with
    | none => rfl
    | some j =>
        cases j with
        | obj kvs =>
            simp only [parse_batch_summary, batchValidSpec]
            by_cases hk : keySetEq (kvs.map Prod.fst) expected = true
            · simp [hk, collectVals_isSome]
            · have hk' : keySetEq (kvs.map Prod.fst) expected = false := by
                cases h : keySetEq (kvs.map Prod.fst) expected
                · rfl
                · exact absurd h hk
              simp [hk']
        | null => rfl
        | bool b => rfl
        | num n => rfl
        | str s => rfl
        | arr xs => rfl
  · intro db o now hp hs hrows hparse
    have hp' : (db.phase == "") = false := beq_eq_false_iff_ne.mpr hp
    have hs' : (pyStrip db.state_text == "") = false := beq_eq_false_iff_ne.mpr hs
    have hre : (get_threads_needing_summary_refresh db.threads db.players).isEmpty
        = false := isEmpty_false_of_ne_nil hrows
    simp only [orders_command, hp', hs', Bool.or_self, Bool.false_eq_true, if_false,
      hre, hparse]

/-- Witness for C4: a store with one claimed, stale thread and a summariser
response that fails to parse makes the `orders` command abort with the
store untouched. -/
theorem batch_summary_fails_closed_witness :
    orders_command
        ⟨[(1, ⟨"bob", some "France"⟩)], [(1, ⟨[], "", "T", ""⟩)],
         "Spring 1901", "board", [], ""⟩
        ⟨none, "", ""⟩ "now"
      = (⟨[(1, ⟨"bob", some "France"⟩)], [(1, ⟨[], "", "T", ""⟩)],
          "Spring 1901", "board", [], ""⟩, OrdersOutcome.summaryAbort) :=
  batch_summary_fails_closed.2
    ⟨[(1, ⟨"bob", some "France"⟩)], [(1, ⟨[], "", "T", ""⟩)],
     "Spring 1901", "board", [], ""⟩
    ⟨none, "", ""⟩ "now" (by decide) (by decide) (by decide) (by decide)

/-! ## C6: outreach dispatch safety -/

theorem aset_keys_sub {κ α : Type} [DecidableEq κ] (l : List (κ × α)) (k : κ) (v : α)
    (x : κ) (h : x ∈ (aset l k v).map Prod.fst) : x = k ∨ x ∈ l.map Prod.fst := by
  induction l with
  | nil =>
      simp [aset] at h
      exact Or.inl h
  | cons hd tl ih =>
      obtain ⟨k0, v0⟩ := hd
      by_cases h0 : k0 = k
      · subst h0
        simp [aset] at h
        rcases h with h | h
        · exact Or.inl h
        · exact Or.inr (by simp [h])
      · simp only [aset, if_neg h0, List.map_cons, List.mem_cons] at h
        rcases h with h | h
        · exact Or.inr (by simp [h])
        · rcases ih h with h1 | h1
          · exact Or.inl h1
          · exact Or.inr (by simp [h1])

theorem buildRecipients_keys_sub (claims : List (String × String × Nat)) :
    ∀ (acc : List (String × Nat)) (k : String),
      k ∈ ((claims.foldl
        (fun d cdu => if cdu.1 ≠ "" then aset d cdu.1 cdu.2.2 else d) acc).map Prod.fst) →
      k ∈ acc.map Prod.fst ∨ k ∈ claims.map (fun c => c.1) := by
  induction claims with
  | nil => intro acc k h; exact Or.inl h
  | cons c cs ih =>
      intro acc k h
      simp only [List.foldl_cons] at h
      rcases ih _ k h with h1 | h1
      · by_cases hc : c.1 ≠ ""
        · rw [if_pos hc] at h1
          rcases aset_keys_sub acc c.1 c.2.2 k h1 with h2 | h2
          · exact Or.inr (by simp [h2])
          · exact Or.inl h2
        · rw [if_neg hc] at h1
          exact Or.inl h1
      · exact Or.inr (by simp [h1])

theorem removeKey_keys (d : List (String × Nat)) (ai : String) (x : String)
    (h : x ∈ (removeKey d ai).map Prod.fst) : x ∈ d.map Prod.fst ∧ x ≠ ai := by
  unfold removeKey at h
  rcases List.mem_map.mp h with ⟨p, hp, rfl⟩
  have hp' := List.mem_filter.mp hp
  refine ⟨List.mem_map.mpr ⟨p, hp'.1, rfl⟩, ?_⟩
  simpa using hp'.2

theorem outreach_loop_length (recips : List (String × Nat)) (sendOk : String → Bool)
    (budget : Nat) (now : String) :
    ∀ (ps : List (String × String)) (used : List String) (sent : Nat)
      (th : List (Nat × ThreadRow)),
      (outreach_loop recips sendOk budget now ps used sent th).2.length ≤ budget - sent := by
  intro ps
  induction ps with
  | nil =>
      intro used sent th
      simp [outreach_loop]
  | cons p ps ih =>
      intro used sent th
      unfold outreach_loop
      by_cases hb : budget ≤ sent
      · simp [hb]
      · simp only [if_neg hb]
        cases hl : alookup recips p.1 with
        | none => exact ih used sent th
        | some uid =>
            by_cases hu : memStr p.1 used = true
            · simp only [hu, if_true]
              exact ih used sent th
            · have hu' : memStr p.1 used = false := by
                cases h : memStr p.1 used
                · rfl
                · exact absurd h hu
              simp only [hu', Bool.false_eq_true, if_false]
              by_cases hm : (p.2 == "") = true
              · simp only [hm, if_true]
                exact ih used sent th
              · have hm' : (p.2 == "") = false := by
                  cases h : (p.2 == "")
                  · rfl
                  · exact absurd h hm
                simp only [hm', Bool.false_eq_true, if_false]
                by_cases hs : sendOk p.1 = true
                · simp only [hs, if_true]
                  have := ih (p.1 :: used) (sent + 1)
                  simp only [List.length_cons]
                  have h2 := this (save_thread th uid
                    ((load_thread th uid).messages ++
                      [⟨"assistant",
                        if 2000 < p.2.data.length then String.mk (p.2.data.take 1999) ++ "…"
                        else p.2⟩])
                    (load_thread th uid).summary none now)
                  omega
                · have hs' : sendOk p.1 = false := by
                    cases h : sendOk p.1
                    · rfl
                    · exact absurd h hs
                  simp only [hs', Bool.false_eq_true, if_false]
                  exact ih used sent th

theorem outreach_loop_sound (recips : List (String × Nat)) (sendOk : String → Bool)
    (budget : Nat) (now : String) :
    ∀ (ps : List (String × String)) (used : List String) (sent : Nat)
      (th : List (Nat × ThreadRow)),
      (∀ x ∈ (outreach_loop recips sendOk budget now ps used sent th).2,
          (alookup recips x.1).isSome = true ∧ x.1 ∉ used)
      ∧ ((outreach_loop recips sendOk budget now ps used sent th).2.map Prod.fst).Nodup := by
  intro ps
  induction ps with
  | nil =>
      intro used sent th
      simp [outreach_loop]
  | cons p ps ih =>
      intro used sent th
      unfold outreach_loop
      by_cases hb : budget ≤ sent
      · simp [hb]
      · simp only [if_neg hb]
        cases hl : alookup recips p.1 with
        | none => exact ih used sent th
        | some uid =>
            by_cases hu : memStr p.1 used = true
            · simp only [hu, if_true]
              exact ih used sent th
            · have hu' : memStr p.1 used = false := by
                cases h : memStr p.1 used
                · rfl
                · exact absurd h hu
              simp only [hu', Bool.false_eq_true, if_false]
              by_cases hm : (p.2 == "") = true
              · simp only [hm, if_true]
                exact ih used sent th
              · have hm' : (p.2 == "") = false := by
                  cases h : (p.2 == "")
                  · rfl
                  · exact absurd h hm
                simp only [hm', Bool.false_eq_true, if_false]
                by_cases hs : sendOk p.1 = true
                · simp only [hs, if_true]
                  have hpu : p.1 ∉ used := by
                    intro hmem
                    rw [(memStr_iff p.1 used).mpr hmem] at hu'
                    exact Bool.true_eq_false.mp hu'
                  obtain ⟨ihm, ihn⟩ := ih (p.1 :: used) (sent + 1)
                    (save_thread th uid
                      ((load_thread th uid).messages ++
                        [⟨"assistant",
                          if 2000 < p.2.data.length then String.mk (p.2.data.take 1999) ++ "…"
                          else p.2⟩])
                      (load_thread th uid).summary none now)
                  constructor
                  · intro x hx
                    simp only [List.mem_cons] at hx
                    rcases hx with rfl | hx
                    · exact ⟨by simp [hl], hpu⟩
                    · obtain ⟨hso, hnu⟩ := ihm x hx
                      exact ⟨hso, fun hx2 => hnu (List.mem_cons_of_mem _ hx2)⟩
                  · simp only [List.map_cons, List.nodup_cons]
                    refine ⟨?_, ihn⟩
                    intro hmem
                    rcases List.mem_map.mp hmem with ⟨x, hx, hfst⟩
                    obtain ⟨_, hnu⟩ := ihm x hx
                    exact hnu (hfst ▸ List.mem_cons_self _ _)
                · have hs' : sendOk p.1 = false := by
                    cases h : sendOk p.1
                    · rfl
                    · exact absurd h hs
                  simp only [hs', Bool.false_eq_true, if_false]
                  exact ih used sent th

/-- C6: for every budget, oracle response and claim set, `send_outreach`
delivers at most `budget` messages, delivers only to claimed countries
other than the AI's own, delivers at most once per recipient per cycle,
and a non-JSON or non-array oracle response yields zero deliveries. -/
theorem outreach_dispatch_safety :
    ∀ (claims : List (String × String × Nat)) (aiCountry : String)
      (parsed : Option Json) (budget : Nat) (sendOk : String → Bool)
      (now : String) (threads : List (Nat × ThreadRow)),
      ((send_outreach claims aiCountry parsed budget sendOk now threads).2.length ≤ budget)
      ∧ (∀ x ∈ (send_outreach claims aiCountry parsed budget sendOk now threads).2,
          x.1 ∈ claims.map (fun c => c.1) ∧ x.1 ≠ aiCountry)
      ∧ ((send_outreach claims aiCountry parsed budget sendOk now threads).2.map
          Prod.fst).Nodup
      ∧ ((match parsed with
          | some (Json.arr _) => false
          | _ => true) = true →
          (send_outreach claims aiCountry parsed budget sendOk now threads).2 = []) := by
  intro claims aiCountry parsed budget sendOk now threads
  unfold send_outreach
  by_cases he : (removeKey (buildRecipients claims) aiCountry).isEmpty = true
  · simp [he]
  · have he' : (removeKey (buildRecipients claims) aiCountry).isEmpty = false := by
      cases h : (removeKey (buildRecipients claims) aiCountry).isEmpty
      · rfl
      · exact absurd h he
    simp only [he', Bool.false_eq_true, if_false]
    refine ⟨?_, ?_, ?_, ?_⟩
    · have h := outreach_loop_length (removeKey (buildRecipients claims) aiCountry)
        sendOk budget now (parse_outreach parsed) [] 0 threads
      simpa using h
    · intro x hx
      obtain ⟨hmu, _⟩ := outreach_loop_sound (removeKey (buildRecipients claims) aiCountry)
        sendOk budget now (parse_outreach parsed) [] 0 threads
      obtain ⟨hso, _⟩ := hmu x hx
      cases hal : alookup (removeKey (buildRecipients claims) aiCountry) x.1 with
      | none => rw [hal] at hso; exact absurd hso (by simp)
      | some v =>
          have hkey := alookup_isSome_mem_keys hal
          obtain ⟨hin, hne⟩ := removeKey_keys _ aiCountry x.1 hkey
          refine ⟨?_, hne⟩
          rcases buildRecipients_keys_sub claims [] x.1 (by
            simpa [buildRecipients] using hin) with h1 | h1
          · simp at h1
          · exact h1
    · exact (outreach_loop_sound (removeKey (buildRecipients claims) aiCountry)
        sendOk budget now (parse_outreach parsed) [] 0 threads).2
    · intro hna
      have hpe : parse_outreach parsed = [] := by
        cases parsed with
        | none => rfl
        | some j =>
            cases j with
            | arr xs => simp at hna
            | null => rfl
            | bool b => rfl
            | num n => rfl
            | str s => rfl
            | obj kvs => rfl
      rw [hpe]
      rfl

/-- Witness for C6: with one claimed recipient, budget 2 and a non-array
oracle reply, nothing is delivered. -/
theorem outreach_dispatch_safety_witness :
    (send_outreach [("France", "f", 1)] "Austria" (some (Json.str "oops")) 2
      (fun _ => true) "T" []).2 = [] :=
  (outreach_dispatch_safety [("France", "f", 1)] "Austria" (some (Json.str "oops")) 2
    (fun _ => true) "T" []).2.2.2 (by decide)

/-! ## C2: country uniqueness -/

theorem eq_false_of_ne_true {b : Bool} (h : ¬ b = true) : b = false := by
  cases b
  · rfl
  · exact absurd rfl h

theorem valid_ne_empty {x : String} (h : memStr x VALID_COUNTRIES = true) : x ≠ "" := by
  intro he
  subst he
  exact absurd h (by decide)

/-- Branch analysis of `claim_country`: either the call succeeded, upserted
the caller's row with the stripped country, with a valid name and no
case-insensitive conflict among the other rows; or it failed and left the
table unchanged. -/
theorem claim_country_cases (players : List (Nat × PlayerRow)) (uid : Nat)
    (dn c : String) :
    ((claim_country players uid dn c).2.1 = true
      ∧ (claim_country players uid dn c).1 = aset players uid ⟨dn, some (pyStrip c)⟩
      ∧ memStr (pyStrip c) VALID_COUNTRIES = true
      ∧ conflictExists players uid (pyStrip c) = false)
    ∨ ((claim_country players uid dn c).2.1 = false
      ∧ (claim_country players uid dn c).1 = players) := by
  simp only [claim_country]
  by_cases hv : memStr (pyStrip c) VALID_COUNTRIES = true
  · simp only [hv, if_true]
    cases hrow : alookup players uid with
    | some row =>
        by_cases ht : truthy row.country = true
        · simp only [ht, if_true]
          exact Or.inr ⟨by trivial, by trivial⟩
        · simp only [eq_false_of_ne_true ht, Bool.false_eq_true, if_false]
          by_cases hcf : conflictExists players uid (pyStrip c) = true
          · simp only [hcf, if_true]
            exact Or.inr ⟨by trivial, by trivial⟩
          · simp only [eq_false_of_ne_true hcf, Bool.false_eq_true, if_false]
            exact Or.inl ⟨by trivial, by trivial, by trivial, by trivial⟩
    | none =>
        by_cases hcf : conflictExists players uid (pyStrip c) = true
        · simp only [hcf, if_true]
          exact Or.inr ⟨by trivial, by trivial⟩
        · simp only [eq_false_of_ne_true hcf, Bool.false_eq_true, if_false]
          exact Or.inl ⟨by trivial, by trivial, by trivial, by trivial⟩
  · simp only [eq_false_of_ne_true hv, Bool.false_eq_true, if_false]
    exact Or.inr ⟨by trivial, by trivial⟩

/-- A false conflict check bounds every other row away from the new
country, case-insensitively. -/
theorem conflict_false_bound {players : List (Nat × PlayerRow)} {uid : Nat}
    {c : String} (hcf : conflictExists players uid c = false)
    {u : Nat} {r : PlayerRow} (hmem : (u, r) ∈ players) (hu : u ≠ uid)
    (ht : truthy r.country = true) :
    lowerStr (r.country.getD "") ≠ lowerStr c := by
  intro heq
  have : conflictExists players uid c = true := by
    unfold conflictExists
    refine List.any_eq_true.mpr ⟨(u, r), hmem, ?_⟩
    simp [hu, ht, heq]
  rw [hcf] at this
  exact Bool.false_ne_true this

/-- C2: `claim_country` preserves the case-insensitive one-user-per-country
invariant, and in the two-user race the loser is rejected with the
country-taken message (the surfaced UNIQUE-index conflict) and the table
is unchanged: after user 1 successfully claims `c1`, an attempt by a
different user 2 (holding no claim) on any valid name equal to `c1` up to
case returns the country-taken failure and the post-state of user 1's
claim. -/
theorem country_uniqueness :
    (∀ (players : List (Nat × PlayerRow)) (uid : Nat) (dn c : String),
      countryUniqueInv players → countryUniqueInv (claim_country players uid dn c).1)
    ∧ (∀ (players : List (Nat × PlayerRow)) (uid1 uid2 : Nat) (dn1 dn2 c1 c2 : String),
      uid1 ≠ uid2 →
      (claim_country players uid1 dn1 c1).2.1 = true →
      truthy (get_player_country (claim_country players uid1 dn1 c1).1 uid2) = false →
      lowerStr (pyStrip c2) = lowerStr (pyStrip c1) →
      memStr (pyStrip c2) VALID_COUNTRIES = true →
      claim_country (claim_country players uid1 dn1 c1).1 uid2 dn2 c2
        = ((claim_country players uid1 dn1 c1).1, false, countryTakenMsg (pyStrip c2))) := by
  constructor
  · intro players uid dn c hinv
    rcases claim_country_cases players uid dn c with ⟨_, hst, hv, hcf⟩ | ⟨_, hst⟩
    · rw [hst]
      intro u1 r1 u2 r2 h1 h2 hne ht1 ht2
      by_cases e1 : u1 = uid
      · subst e1
        have e2 : u2 ≠ u1 := Ne.symm hne
        rw [alookup_aset_self] at h1
        injection h1 with h1
        subst h1
        rw [alookup_aset_ne _ _ _ _ e2] at h2
        have hb := conflict_false_bound hcf (alookup_mem h2) e2 ht2
        exact fun heq => hb heq.symm
      · by_cases e2 : u2 = uid
        · subst e2
          rw [alookup_aset_self] at h2
          injection h2 with h2
          subst h2
          rw [alookup_aset_ne _ _ _ _ e1] at h1
          have hb := conflict_false_bound hcf (alookup_mem h1) e1 ht1
          exact hb
        · rw [alookup_aset_ne _ _ _ _ e1] at h1
          rw [alookup_aset_ne _ _ _ _ e2] at h2
          exact hinv u1 r1 u2 r2 h1 h2 hne ht1 ht2
    · rw [hst]
      exact hinv
  · intro players uid1 uid2 dn1 dn2 c1 c2 hne hok ht2 hlow hv2
    rcases claim_country_cases players uid1 dn1 c1 with ⟨_, hst, hv1, _⟩ | ⟨hf, _⟩
    · rw [hst] at ht2 ⊢
      have hc1ne : pyStrip c1 ≠ "" := valid_ne_empty hv1
      have hconf : conflictExists (aset players uid1 ⟨dn1, some (pyStrip c1)⟩)
          uid2 (pyStrip c2) = true := by
        unfold conflictExists
        refine List.any_eq_true.mpr
          ⟨(uid1, ⟨dn1, some (pyStrip c1)⟩), mem_aset_self players uid1 _, ?_⟩
        simp [hne, truthy, hc1ne, hlow]
      simp only [claim_country, hv2, if_true]
      cases hal : alookup (aset players uid1 ⟨dn1, some (pyStrip c1)⟩) uid2 with
      | some row2 =>
          have htr : truthy row2.country = false := by
            unfold get_player_country at ht2
            rw [hal] at ht2
            exact ht2
          simp only [hal, htr, Bool.false_eq_true, if_false, hconf, if_true]
      | none =>
          simp only [hal, hconf, if_true]
    · rw [hok] at hf
      exact absurd hf (by simp)

/-- Witness for C2: after user 1 claims France, user 2's attempt on France
is rejected with the country-taken message and no state change. -/
theorem country_uniqueness_witness :
    claim_country (claim_country [] 1 "ann" "France").1 2 "eve" "France"
      = ((claim_country [] 1 "ann" "France").1, false, countryTakenMsg "France") :=
  country_uniqueness.2 [] 1 2 "ann" "eve" "France" "France" (by decide) (by decide)
    (by decide) (by decide) (by decide)

/-! ## C8: staleness predicate and batched refresh -/

theorem refresh_rows_keys (ths : List (Nat × ThreadRow)) (players : List (Nat × PlayerRow)) :
    ∀ r ∈ get_threads_needing_summary_refresh ths players, r.user_id ∈ ths.map Prod.fst := by
  intro r hr
  unfold get_threads_needing_summary_refresh at hr
  rcases List.mem_filterMap.mp hr with ⟨e, he, hfe⟩
  cases hp : alookup players e.1 with
  | none => simp [hp] at hfe
  | some p =>
      cases hc : p.country with
      | none => simp [hp, hc] at hfe
      | some c =>
          cases hs : stale e.2 with
          | false => simp [hp, hc, hs] at hfe
          | true =>
              simp only [hp, hc, hs, if_true] at hfe
              rw [Option.some_inj] at hfe
              subst hfe
              exact List.mem_map.mpr ⟨e, he, rfl⟩

theorem refresh_any_false {players : List (Nat × PlayerRow)}
    {rest : List (Nat × ThreadRow)} {k : Nat} (hk : k ∉ rest.map Prod.fst) :
    ((get_threads_needing_summary_refresh rest players).any
      (fun r => r.user_id == k)) = false := by
  apply eq_false_of_ne_true
  intro hany
  rcases List.any_eq_true.mp hany with ⟨r, hr, hrk⟩
  have hkey := refresh_rows_keys rest players r hr
  rw [beq_iff_eq] at hrk
  exact hk (hrk ▸ hkey)

theorem refresh_selected_iff (players : List (Nat × PlayerRow)) :
    ∀ (ths : List (Nat × ThreadRow)) (uid : Nat) (t : ThreadRow) (p : PlayerRow)
      (c : String),
      (ths.map Prod.fst).Nodup →
      alookup ths uid = some t →
      alookup players uid = some p → p.country = some c →
      ((get_threads_needing_summary_refresh ths players).any
        (fun r => r.user_id == uid)) = stale t := by
  intro ths
  induction ths with
  | nil =>
      intro uid t p c _ hl
      simp [alookup] at hl
  | cons e rest ih =>
      intro uid t p c hnd hl hp hc
      obtain ⟨k, t0⟩ := e
      rw [List.map_cons] at hnd
      have hnd2 := List.nodup_cons.mp hnd
      have hnd' : (rest.map Prod.fst).Nodup := hnd2.2
      have hknotin : k ∉ rest.map Prod.fst := hnd2.1
      unfold get_threads_needing_summary_refresh
      rw [List.filterMap_cons]
      by_cases hk : k = uid
      · subst hk
        have ht0 : t0 = t := by
          simpa [alookup] using hl
        subst ht0
        have hrest := @refresh_any_false players rest k hknotin
        unfold get_threads_needing_summary_refresh at hrest
        cases hs : stale t0 with
        | true => simp [hp, hc, hs, List.any_cons]
        | false => simpa [hp, hc, hs] using hrest
      · have hl' : alookup rest uid = some t := by
          simpa [alookup, hk] using hl
        have hkne : (k == uid) = false := by
          simp [hk]
        have htail := ih uid t p c hnd' hl' hp hc
        unfold get_threads_needing_summary_refresh at htail
        cases hp2 : alookup players k with
        | none => simpa [hp2] using htail
        | some p2 =>
            cases hc2 : p2.country with
            | none => simpa [hp2, hc2] using htail
            | some c2 =>
                cases hs2 : stale t0 with
                | false => simpa [hp2, hc2, hs2] using htail
                | true =>
                    simp only [hp2, hc2, hs2, if_true, List.any_cons]
                    simpa [hkne] using htail

theorem update_thread_effect (ths : List (Nat × ThreadRow)) (uid : Nat)
    (s now : String) (t : ThreadRow) (hrow : alookup ths uid = some t) :
    alookup (update_thread_summary_and_truncate ths uid s 2 now) uid
      = some ⟨lastN t.messages 2, s, t.last_updated, now⟩ := by
  unfold update_thread_summary_and_truncate
  simp [hrow, alookup_aset_self]

theorem update_preserves_lastUpd (th : List (Nat × ThreadRow)) (uid' : Nat)
    (s now' : String) (uid : Nat) (L : String)
    (h : ∃ t, alookup th uid = some t ∧ t.last_updated = L) :
    ∃ t, alookup (update_thread_summary_and_truncate th uid' s 2 now') uid = some t
      ∧ t.last_updated = L := by
  obtain ⟨t, hl, hL⟩ := h
  by_cases he : uid' = uid
  · subst he
    exact ⟨_, update_thread_effect th uid' s now' t hl, hL⟩
  · unfold update_thread_summary_and_truncate
    cases hr : alookup th uid' with
    | none => exact ⟨t, hl, hL⟩
    | some r =>
        refine ⟨t, ?_, hL⟩
        rw [alookup_aset_ne _ _ _ _ (Ne.symm he)]
        exact hl

theorem update_preserves_stamp (th : List (Nat × ThreadRow)) (uid' : Nat)
    (s now : String) (uid : Nat) (L : String)
    (h : ∃ t, alookup th uid = some t ∧ t.last_updated = L
        ∧ t.summary_last_updated = now) :
    ∃ t, alookup (update_thread_summary_and_truncate th uid' s 2 now) uid = some t
      ∧ t.last_updated = L ∧ t.summary_last_updated = now := by
  obtain ⟨t, hl, hL, hS⟩ := h
  by_cases he : uid' = uid
  · subst he
    exact ⟨_, update_thread_effect th uid' s now t hl, hL, rfl⟩
  · unfold update_thread_summary_and_truncate
    cases hr : alookup th uid' with
    | none => exact ⟨t, hl, hL, hS⟩
    | some r =>
        refine ⟨t, ?_, hL, hS⟩
        rw [alookup_aset_ne _ _ _ _ (Ne.symm he)]
        exact hl

theorem applyBatch_preserves_lastUpd (rows : List RefreshRow) (now : String) :
    ∀ (summaries : List (String × String)) (th : List (Nat × ThreadRow))
      (uid : Nat) (L : String),
      (∃ t, alookup th uid = some t ∧ t.last_updated = L) →
      ∃ t, alookup (applyBatchSummaries th rows summaries now) uid = some t
        ∧ t.last_updated = L := by
  intro summaries
  induction summaries with
  | nil => intro th uid L h; exact h
  | cons cs rest ih =>
      intro th uid L h
      show ∃ t, alookup (applyBatchSummaries
        (match lookupLastCountry rows cs.1 with
         | some u => update_thread_summary_and_truncate th u cs.2 2 now
         | none => th) rows rest now) uid = some t ∧ t.last_updated = L
      cases hlc : lookupLastCountry rows cs.1 with
      | none => exact ih th uid L h
      | some u => exact ih _ uid L (update_preserves_lastUpd th u cs.2 now uid L h)

theorem applyBatch_preserves_stamp (rows : List RefreshRow) (now : String) :
    ∀ (summaries : List (String × String)) (th : List (Nat × ThreadRow))
      (uid : Nat) (L : String),
      (∃ t, alookup th uid = some t ∧ t.last_updated = L
        ∧ t.summary_last_updated = now) →
      ∃ t, alookup (applyBatchSummaries th rows summaries now) uid = some t
        ∧ t.last_updated = L ∧ t.summary_last_updated = now := by
  intro summaries
  induction summaries with
  | nil => intro th uid L h; exact h
  | cons cs rest ih =>
      intro th uid L h
      show ∃ t, alookup (applyBatchSummaries
        (match lookupLastCountry rows cs.1 with
         | some u => update_thread_summary_and_truncate th u cs.2 2 now
         | none => th) rows rest now) uid = some t
        ∧ t.last_updated = L ∧ t.summary_last_updated = now
      cases hlc : lookupLastCountry rows cs.1 with
      | none => exact ih th uid L h
      | some u => exact ih _ uid L (update_preserves_stamp th u cs.2 now uid L h)

/-- C8: a claimed user's thread is selected for the batched refresh iff
`summary_last_updated = "" ∨ last_updated > summary_last_updated`
(`stale`); a successful per-row update stamps `summary_last_updated := now`
and leaves `last_updated` untouched; and after the whole batch is applied,
every refreshed user's thread fails the staleness predicate (given the
clock stamp `now` is non-empty and not lexicographically below the row's
`last_updated`). -/
theorem staleness_predicate :
    (∀ (ths : List (Nat × ThreadRow)) (players : List (Nat × PlayerRow)) (uid : Nat)
      (t : ThreadRow) (p : PlayerRow) (c : String),
      (ths.map Prod.fst).Nodup →
      alookup ths uid = some t →
      alookup players uid = some p → p.country = some c →
      ((get_threads_needing_summary_refresh ths players).any
        (fun r => r.user_id == uid)) = stale t)
    ∧ (∀ (ths : List (Nat × ThreadRow)) (uid : Nat) (s now : String) (t : ThreadRow),
        alookup ths uid = some t →
        alookup (update_thread_summary_and_truncate ths uid s 2 now) uid
          = some ⟨lastN t.messages 2, s, t.last_updated, now⟩)
    ∧ (∀ (ths : List (Nat × ThreadRow)) (rows : List RefreshRow)
        (summaries : List (String × String)) (now : String) (uid : Nat)
        (c s : String) (t : ThreadRow),
        (c, s) ∈ summaries →
        lookupLastCountry rows c = some uid →
        alookup ths uid = some t →
        now ≠ "" → strLt now t.last_updated = false →
        ∃ t2, alookup (applyBatchSummaries ths rows summaries now) uid = some t2
          ∧ t2.last_updated = t.last_updated
          ∧ t2.summary_last_updated = now
          ∧ stale t2 = false) := by
  refine ⟨?_, ?_, ?_⟩
  · exact fun ths players uid t p c => refresh_selected_iff players ths uid t p c
  · exact fun ths uid s now t h => update_thread_effect ths uid s now t h
  · intro ths rows summaries now uid c s t hmem hlc hrow hne hlt
    rcases List.append_of_mem hmem with ⟨l1, l2, rfl⟩
    have hP : ∃ t1, alookup (applyBatchSummaries ths rows l1 now) uid = some t1
        ∧ t1.last_updated = t.last_updated :=
      applyBatch_preserves_lastUpd rows now l1 ths uid t.last_updated ⟨t, hrow, rfl⟩
    obtain ⟨t1, hl1, hL1⟩ := hP
    have hstep : ∃ tq, alookup (update_thread_summary_and_truncate
        (applyBatchSummaries ths rows l1 now) uid s 2 now) uid = some tq
        ∧ tq.last_updated = t.last_updated ∧ tq.summary_last_updated = now := by
      refine ⟨_, update_thread_effect _ uid s now t1 hl1, ?_, rfl⟩
      exact hL1
    have hfold : applyBatchSummaries ths rows (l1 ++ (c, s) :: l2) now
        = applyBatchSummaries
            (update_thread_summary_and_truncate
              (applyBatchSummaries ths rows l1 now) uid s 2 now) rows l2 now := by
      unfold applyBatchSummaries
      rw [List.foldl_append, List.foldl_cons]
      simp only [hlc]
    obtain ⟨t2, hl2, hL2, hS2⟩ :=
      applyBatch_preserves_stamp rows now l2 _ uid t.last_updated hstep
    refine ⟨t2, ?_, hL2, hS2, ?_⟩
    · rw [hfold]
      exact hl2
    · unfold stale
      rw [hS2, hL2]
      simp [beq_eq_false_iff_ne.mpr hne, hlt]

/-- Witness for C8: a claimed user with thread stamps `A < B` is selected
(the staleness predicate holds), and after the batch applies a summary for
that user at time `C` (with `B ≤ C`), the thread is no longer stale. -/
theorem staleness_predicate_witness :
    ((get_threads_needing_summary_refresh [(1, ⟨[], "s", "B", "A"⟩)]
        [(1, ⟨"bob", some "France"⟩)]).any (fun r => r.user_id == 1)) = true
    ∧ ∃ t2, alookup (applyBatchSummaries [(1, ⟨[], "s", "B", "A"⟩)]
        [⟨1, "France", "s", [], "B", "A"⟩] [("France", "s2")] "C") 1 = some t2
        ∧ stale t2 = false := by
  constructor
  · have h := staleness_predicate.1 [(1, ⟨[], "s", "B", "A"⟩)]
      [(1, ⟨"bob", some "France"⟩)] 1 ⟨[], "s", "B", "A"⟩ ⟨"bob", some "France"⟩
      "France" (by decide) (by decide) (by decide) (by decide)
    rw [h]
    decide
  · obtain ⟨t2, hl, _, _, hs⟩ := staleness_predicate.2.2 [(1, ⟨[], "s", "B", "A"⟩)]
      [⟨1, "France", "s", [], "B", "A"⟩] [("France", "s2")] "C" 1 "France" "s2"
      ⟨[], "s", "B", "A"⟩ (by decide) (by decide) (by decide) (by decide) (by decide)
    exact ⟨t2, hl, hs⟩

/-! ## C10: cooldown is charged before any further DM handling -/

/-- C10: every inbound DM that passes the cooldown gate has the sender's
timestamp set to `now` in the resulting state, whatever happens next; a DM
from a user with no claim (and no `claim` command) is answered with the
claim-first prompt, appends to no thread and never calls the Completion
Service; and a `claim`-prefixed DM (bare or otherwise) also leaves threads
untouched and calls no oracle — in all cases the cooldown window was
reset. -/
theorem cooldown_updated_before_handling :
    ∀ (db : DBState) (uid : Nat) (dn text : String) (now_ts window : Rat)
      (K : Nat) (o : DMOracle) (ns nl : String),
      (check_and_update_cooldown db.cooldowns uid now_ts window).1 = true →
      alookup (handle_dm db uid dn text now_ts window K o ns nl).db.cooldowns uid
        = some now_ts
      ∧ (truthy (get_player_country db.players uid) = false →
          startsWith "claim" (lowerStr (pyStrip text)) = false →
          (handle_dm db uid dn text now_ts window K o ns nl).result
              = DMResult.needClaimFirst
          ∧ (handle_dm db uid dn text now_ts window K o ns nl).db.threads = db.threads
          ∧ (handle_dm db uid dn text now_ts window K o ns nl).calledOracle = false)
      ∧ (startsWith "claim" (lowerStr (pyStrip text)) = true →
          (handle_dm db uid dn text now_ts window K o ns nl).db.threads = db.threads
          ∧ (handle_dm db uid dn text now_ts window K o ns nl).calledOracle = false) := by
  intro db uid dn text now_ts window K o ns nl hallow
  have hstate := cooldown_allowed_state db.cooldowns uid now_ts window hallow
  unfold handle_dm
  simp only [hallow, Bool.not_true, Bool.false_eq_true, if_false, hstate]
  by_cases hcl : startsWith "claim" (lowerStr (pyStrip text)) = true
  · simp only [hcl, if_true]
    cases hsp : splitMax1 (pyStrip text) with
    | nil =>
        refine ⟨alookup_aset_self _ _ _, ?_, ?_⟩
        · intro _ h2
          cases h2
        · intro _
          exact ⟨rfl, rfl⟩
    | cons a rest =>
        cases rest with
        | nil =>
            refine ⟨alookup_aset_self _ _ _, ?_, ?_⟩
            · intro _ h2
              cases h2
            · intro _
              exact ⟨rfl, rfl⟩
        | cons b rest2 =>
            cases rest2 with
            | nil =>
                refine ⟨alookup_aset_self _ _ _, ?_, ?_⟩
                · intro _ h2
                  cases h2
                · intro _
                  exact ⟨rfl, rfl⟩
            | cons c2 rest3 =>
                refine ⟨alookup_aset_self _ _ _, ?_, ?_⟩
                · intro _ h2
                  cases h2
                · intro _
                  exact ⟨rfl, rfl⟩
  · have hcl' : startsWith "claim" (lowerStr (pyStrip text)) = false :=
      eq_false_of_ne_true hcl
    simp only [hcl', Bool.false_eq_true, if_false]
    by_cases htr : truthy (get_player_country db.players uid) = true
    · simp only [htr, Bool.not_true, Bool.false_eq_true, if_false]
      refine ⟨alookup_aset_self _ _ _, ?_, ?_⟩
      · intro h1
        cases h1
      · intro h2
        cases h2
    · have htr' : truthy (get_player_country db.players uid) = false :=
        eq_false_of_ne_true htr
      simp only [htr', Bool.not_false, if_true]
      refine ⟨alookup_aset_self _ _ _, ?_, ?_⟩
      · intro _ _
        exact ⟨by trivial, by trivial, by trivial⟩
      · intro h2
        cases h2

/-- Witness for C10: a first-time sender with no claim DMs free text; the
cooldown table records the timestamp, the reply is the claim-first prompt,
no thread is written and no oracle is called. -/
theorem cooldown_updated_before_handling_witness :
    alookup (handle_dm ⟨[], [], "", "", [], ""⟩ 7 "n" "hello" 5 30 12 ⟨"x", "y"⟩
        "T" "T").db.cooldowns 7 = some 5
    ∧ (handle_dm ⟨[], [], "", "", [], ""⟩ 7 "n" "hello" 5 30 12 ⟨"x", "y"⟩
        "T" "T").result = DMResult.needClaimFirst := by
  have h := cooldown_updated_before_handling ⟨[], [], "", "", [], ""⟩ 7 "n" "hello"
    5 30 12 ⟨"x", "y"⟩ "T" "T" (by decide)
  exact ⟨h.1, (h.2.1 (by decide) (by decide)).1⟩

/-! ## C1: press-lock protocol (spec-modelled) -/

/-- C1: the press lock starts `unlocked`; an `orders` command that produces
at least one valid line locks it, one that produces none leaves it as it
was; a completed `outreach` command (any send count) unlocks it; and while
`locked`, every inbound DM is answered with the fixed notice with the whole
store unchanged (no thread append, no cooldown change) and the Completion
Service is never called.  (The lock is modelled from the spec, §4.4: its
orchestration code is not under `src/`.) -/
theorem press_lock_protocol :
    pressLockInit = LockState.unlocked
    ∧ (∀ l, pressLockStep l (GateEvent.ordersCommand true) = LockState.locked)
    ∧ (∀ l, pressLockStep l (GateEvent.ordersCommand false) = l)
    ∧ (∀ l, pressLockStep l GateEvent.outreachCommand = LockState.unlocked)
    ∧ (∀ (db : DBState) (uid : Nat) (dn text : String) (now_ts window : Rat)
        (K : Nat) (o : DMOracle) (ns nl : String),
        handle_dm_gated LockState.locked db uid dn text now_ts window K o ns nl
          = ⟨db, DMResult.lockedNotice, false⟩) := by
  refine ⟨rfl, ?_, ?_, ?_, ?_⟩
  · intro l
    cases l <;> rfl
  · intro l
    cases l <;> rfl
  · intro l
    cases l <;> rfl
  · intro db uid dn text now_ts window K o ns nl
    rfl

end Diplo
